import Mathlib

/-!
Verification of the search/matching core of the Exam Support Bot
(`src/app.py`): the tiered substring Matcher, the `difflib`-based
Fallback Resolver, the table slot with its lock, and `refresh`.

Modelling conventions (shallow embedding):
* Text is `List Char` (`Str`).  Python's `str.lower` is modelled with
  `Char.toLower` (ASCII case mapping); `str.strip`/`str.split` use the
  ASCII whitespace set.
* A pandas cell is `Option Str`: `none` is a missing cell (`NaN`).
  `str(...)` applied to a missing cell yields the text `"nan"`, exactly
  as `str(float("nan"))` does in Python; this is embedded by `pyStr`.
* `difflib.SequenceMatcher.ratio` is embedded exactly (including the
  autojunk "popular element" rule for second sequences of length ≥ 200,
  and the extension passes of `find_longest_match`); the ratio is kept
  as an exact fraction `(numerator, denominator)` instead of a float.
  `get_close_matches` filters with `real_quick_ratio() >= cutoff and
  quick_ratio() >= cutoff and ratio() >= cutoff`; the first two are
  upper bounds of `ratio()`, so the conjunction is equivalent to the
  final exact test, which is what is embedded.  `heapq.nlargest(n, ...)`
  is documented to equal `sorted(..., reverse=True)[:n]`, embedded as a
  stable descending sort on (ratio, name) followed by `take n`.
* Python's stable `list.sort(key=..., reverse=True)` is embedded as a
  stable descending insertion sort (`sortDesc`); a stable sort is
  determined uniquely by the key preorder, so this is faithful.
-/

/-- Python text, one `Char` per code point. -/
abbrev Str := List Char

/-- Convert a Lean string literal to embedded Python text. -/
def str (s : String) : Str := s.data

/-- The whitespace set of Python's `str.strip` / `str.split` (ASCII part). -/
def pySpace (c : Char) : Bool :=
  c = ' ' || c = '\t' || c = '\n' || c = '\r' || c = '\x0b' || c = '\x0c'

/-- Python `str.strip()`. -/
def pyStrip (l : Str) : Str :=
  ((l.dropWhile pySpace).reverse.dropWhile pySpace).reverse

/-- Python `str.lower()` (ASCII case mapping). -/
def pyLower (l : Str) : Str := l.map Char.toLower

/-- Helper of `pySplit`: accumulates the current word reversed. -/
def pySplitGo (cur : Str) : Str → List Str
  | [] => if cur.isEmpty then [] else [cur.reverse]
  | c :: cs =>
    if pySpace c then
      if cur.isEmpty then pySplitGo [] cs else cur.reverse :: pySplitGo [] cs
    else pySplitGo (c :: cur) cs

/-- Python `str.split()` with no argument: split on whitespace runs,
dropping empty words. -/
def pySplit (l : Str) : List Str := pySplitGo [] l

/-- Python `needle in hay` for strings: substring containment. -/
def isSub (needle hay : Str) : Bool := decide (needle <:+: hay)

/-- `str(cell)` for a pandas cell: a missing cell (`NaN`) prints as `"nan"`. -/
def pyStr (cell : Option Str) : Str := cell.getD (str "nan")

/-! ## Matcher (`search_issue`, the scoring loop at `src/app.py:128-145`) -/

/-- Issue-field tier of the scoring loop:
`if q in issue: score += 100 elif any(w in issue for w in q.split()): score += 50`. -/
def issue_score (q issueText : Str) : Nat :=
  if isSub q issueText then 100
  else if (pySplit q).any (fun w => isSub w issueText) then 50
  else 0

/-- Description-field tier:
`if q in description: score += 75 elif any(w in description ...): score += 30`. -/
def description_score (q descText : Str) : Nat :=
  if isSub q descText then 75
  else if (pySplit q).any (fun w => isSub w descText) then 30
  else 0

/-- One row of the table: the three cells the code reads. -/
structure Record where
  issue : Option Str
  description : Option Str
  solution : Option Str
deriving DecidableEq, Repr

abbrev Table := List Record

/-- Total score of one row for the normalized query `q`. -/
def row_score (q : Str) (r : Record) : Nat :=
  issue_score q (pyLower (pyStr r.issue)) +
  description_score q (pyLower (pyStr r.description))

/-- One result dict appended by `search_issue`: raw `Issue` and
`Description` cells, `str()`-converted solution, and the score. -/
structure Cand where
  score : Nat
  issue : Option Str
  description : Option Str
  solution : Str
deriving DecidableEq, Repr

/-- The dict appended for a scoring row. -/
def mkCand (q : Str) (r : Record) : Cand :=
  ⟨row_score q r, r.issue, r.description, pyStr r.solution⟩

/-- First pass of `search_issue`: every row with positive score, in table
order, with its result dict. -/
def matcher_results (query : Str) (T : Table) : List Cand :=
  let q := pyStrip (pyLower query)
  T.filterMap (fun r => if 0 < row_score q r then some (mkCand q r) else none)

/-! ## Stable descending sort (Python's `list.sort(..., reverse=True)`) -/

/-- Insert `x` before the first element `y` with `le y x`; `x` is earlier
in the original list, so on an equal key it lands in front. -/
def insertDesc (le : α → α → Bool) (x : α) : List α → List α
  | [] => [x]
  | y :: ys => if le y x then x :: y :: ys else y :: insertDesc le x ys

/-- Stable sort, largest first with respect to `le`. -/
def sortDesc (le : α → α → Bool) (l : List α) : List α :=
  l.foldr (insertDesc le) []

/-- Key order of `results.sort(key=lambda x: x["score"], reverse=True)`. -/
def candLe (c d : Cand) : Bool := decide (c.score ≤ d.score)

/-! ## `difflib.SequenceMatcher` (`ratio`) and `get_close_matches` -/

/-- Autojunk rule of `SequenceMatcher.__chain_b`: when the second
sequence has at least 200 elements, an element is "popular" and removed
from `b2j` exactly when its occurrence count exceeds
`ntest = len(b) // 100 + 1`. -/
def popularB (b : Str) : Char → Bool :=
  fun c => decide (200 ≤ b.length) && decide (b.length / 100 + 1 < b.count c)

/-- One cell of the `j2len` dynamic programming table is nonzero exactly
when the characters match, the `b` character is not popular, and the
position is inside the window. -/
def matchAt (a b : Str) (pop : Char → Bool) (alo blo i j : Nat) : Bool :=
  match a.get? i, b.get? j with
  | some x, some y =>
    x == y && !(pop y) && decide (alo ≤ i) && decide (blo ≤ j)
  | _, _ => false

/-- Length of the matched run ending at `(i, j)` (the `j2len` value of
`find_longest_match`), structural in `i`. -/
def runEnd (a b : Str) (pop : Char → Bool) (alo blo : Nat) : Nat → Nat → Nat
  | 0, j => if matchAt a b pop alo blo 0 j then 1 else 0
  | i + 1, j =>
    if matchAt a b pop alo blo (i + 1) j then
      1 + (if decide (alo < i + 1) && decide (blo < j) then
             runEnd a b pop alo blo i (j - 1)
           else 0)
    else 0

/-- The main loop of `find_longest_match`: scan `i` then `j` in increasing
order, updating only on a strictly larger run, which selects the
lexicographically first end position attaining the maximum. -/
def dpBest (a b : Str) (pop : Char → Bool) (alo ahi blo bhi : Nat) :
    Nat × Nat × Nat :=
  (List.range' alo (ahi - alo)).foldl (fun best i =>
    (List.range' blo (bhi - blo)).foldl (fun best j =>
      let k := runEnd a b pop alo blo i j
      if best.2.2 < k then (i + 1 - k, j + 1 - k, k) else best) best)
    (alo, blo, 0)

/-- First extension loop of `find_longest_match`: grow the block to the
left while the adjacent characters are equal (the junk set is empty, so
the `isbjunk` guard always passes). -/
def extLeft (a b : Str) (alo blo : Nat) : Nat → Nat × Nat × Nat → Nat × Nat × Nat
  | 0, best => best
  | fuel + 1, (i, j, k) =>
    if decide (alo < i) && decide (blo < j) &&
        (match a.get? (i - 1), b.get? (j - 1) with
         | some x, some y => x == y
         | _, _ => false) then
      extLeft a b alo blo fuel (i - 1, j - 1, k + 1)
    else (i, j, k)

/-- Second extension loop: grow the block to the right. -/
def extRight (a b : Str) (ahi bhi : Nat) : Nat → Nat × Nat × Nat → Nat × Nat × Nat
  | 0, best => best
  | fuel + 1, (i, j, k) =>
    if decide (i + k < ahi) && decide (j + k < bhi) &&
        (match a.get? (i + k), b.get? (j + k) with
         | some x, some y => x == y
         | _, _ => false) then
      extRight a b ahi bhi fuel (i, j, k + 1)
    else (i, j, k)

/-- `SequenceMatcher.find_longest_match` on the window
`[alo, ahi) × [blo, bhi)` (explicit junk set empty, so the two
junk-extension loops are no-ops and are omitted). -/
def find_longest_match (a b : Str) (pop : Char → Bool) (alo ahi blo bhi : Nat) :
    Nat × Nat × Nat :=
  let d := dpBest a b pop alo ahi blo bhi
  let l := extLeft a b alo blo d.1 d
  extRight a b ahi bhi ahi l

/-- Total size of the matching blocks (`sum of k` over
`get_matching_blocks`), with fuel bounding the recursion depth by the
`a`-window, which shrinks strictly at every split. -/
def matchTotal (a b : Str) (pop : Char → Bool) :
    Nat → Nat → Nat → Nat → Nat → Nat
  | 0, _, _, _, _ => 0
  | fuel + 1, alo, ahi, blo, bhi =>
    let m := find_longest_match a b pop alo ahi blo bhi
    let i := m.1
    let j := m.2.1
    let k := m.2.2
    if k = 0 then 0
    else
      k + (if decide (alo < i) && decide (blo < j) then
             matchTotal a b pop fuel alo i blo j
           else 0)
        + (if decide (i + k < ahi) && decide (j + k < bhi) then
             matchTotal a b pop fuel (i + k) ahi (j + k) bhi
           else 0)

/-- `SequenceMatcher(None, a, b).ratio()` as an exact fraction
`2 * matches / (len(a) + len(b))`; for two empty sequences
`_calculate_ratio` returns `1.0`.  The denominator is always positive. -/
def ratioPair (a b : Str) : Nat × Nat :=
  let t := a.length + b.length
  if t = 0 then (1, 1)
  else (2 * matchTotal a b (popularB b) (a.length + 1) 0 a.length 0 b.length, t)

/-- The ratio as a rational number on the 0-1 scale. -/
def ratioQ (a b : Str) : ℚ :=
  ((ratioPair a b).1 : ℚ) / ((ratioPair a b).2 : ℚ)

/-- Python string comparison (`<=`): lexicographic by code point, with a
proper prefix smaller than the longer string. -/
def lexLe : Str → Str → Bool
  | [], _ => true
  | _ :: _, [] => false
  | a :: as, b :: bs => if a < b then true else if a = b then lexLe as bs else false

/-- One scored entry `(ratio, name)` kept by `get_close_matches`. -/
structure RatioEntry where
  num : Nat
  den : Nat
  name : Str
deriving DecidableEq, Repr

/-- Python tuple comparison on `(ratio, name)` pairs, ratios compared by
cross multiplication (denominators produced by `ratioPair` are positive). -/
def entryLe (e f : RatioEntry) : Bool :=
  decide (e.num * f.den < f.num * e.den) ||
    (decide (e.num * f.den = f.num * e.den) && lexLe e.name f.name)

/-- The filtering loop of `get_close_matches`: keep `(ratio, name)` for
every name with `ratio >= cutoff`, cutoff `0.4 = 2/5`. -/
def ratio_pairs (query : Str) (names : List Str) : List RatioEntry :=
  names.filterMap (fun x =>
    let p := ratioPair x query
    if 2 * p.2 ≤ 5 * p.1 then some ⟨p.1, p.2, x⟩ else none)

/-- `difflib.get_close_matches(query, names, n=3, cutoff=0.4)`. -/
def get_close_matches (query : Str) (names : List Str) : List Str :=
  ((sortDesc entryLe (ratio_pairs query names)).take 3).map RatioEntry.name

/-! ## Fallback pass and `search_issue` -/

/-- First-occurrence deduplication, as pandas `Series.unique()`. -/
def dedupGo (seen : List Str) : List Str → List Str
  | [] => []
  | x :: xs =>
    if x ∈ seen then dedupGo seen xs else x :: dedupGo (x :: seen) xs

/-- `self.df["Issue"].dropna().unique().tolist()`: the distinct non-missing
issue cells, first occurrence first, case preserved. -/
def issue_list (T : Table) : List Str := dedupGo [] (T.filterMap Record.issue)

/-- The dict appended for a fallback row: fixed score 25. -/
def fbCand (r : Record) : Cand := ⟨25, r.issue, r.description, pyStr r.solution⟩

/-- The fallback loop of `search_issue` (`src/app.py:149-160`).  The issue
names are read from `Tread` (the second `self.df` read under the lock at
line 150-151) while the expansion `df[df["Issue"] == match]` runs over
`Texp` (the `df` snapshot taken at line 120-121). -/
def fallback_results (query : Str) (Texp Tread : Table) : List Cand :=
  (get_close_matches query (issue_list Tread)).flatMap (fun m =>
    (Texp.filter (fun r => decide (r.issue = some m))).map fbCand)

/-- Body of `search_issue` after the not-ready/empty-query guard, with the
two `self.df` reads as separate parameters. -/
def search_core (query : Str) (Tfirst Tsecond : Table) : List Cand :=
  let sorted := sortDesc candLe (matcher_results query Tfirst)
  if sorted.isEmpty then fallback_results query Tfirst Tsecond else sorted

/-- `ExamSupportBot.search_issue` when no install happens during the
search: both `self.df` reads see the same table.  Returns `none` both
when no table is installed and when the final list is empty
(`return results[:5] or None`). -/
def search_issue (df : Option Table) (query : Str) : Option (List Cand) :=
  match df with
  | none => none
  | some t =>
    if (pyStrip query).isEmpty then none
    else
      let out := (search_core query t t).take 5
      if out.isEmpty then none else some out

/-- `search_issue` when an install may happen between the first `self.df`
read (line 120-121) and the second one in the fallback branch (line
150-151): the fallback issue names come from `dfSecond`. -/
def search_issue_race (df : Option Table) (dfSecond : Table) (query : Str) :
    Option (List Cand) :=
  match df with
  | none => none
  | some t =>
    if (pyStrip query).isEmpty then none
    else
      let out := (search_core query t dfSecond).take 5
      if out.isEmpty then none else some out

/-! ## Table slot, status properties and `refresh` -/

/-- The bot's mutable state: the table slot and the last-refresh stamp,
both written together under `self._lock`. -/
structure BotState where
  df : Option Table
  last_refresh : Option Str
deriving DecidableEq, Repr

/-- The lock-protected assignment in `load_from_path` / `load_from_bytes`
(the previous state is discarded wholesale). -/
def install (_st : BotState) (T : Table) (now : Str) : BotState :=
  ⟨some T, some now⟩

/-- The lock-protected read `df = self.df`. -/
def get_snapshot (st : BotState) : Option Table := st.df

/-- The `ready` property: `self.df is not None`. -/
def ready (st : BotState) : Bool := st.df.isSome

/-- The `total_records` property: `len(self.df)` or 0. -/
def total_records (st : BotState) : Nat := (st.df.map List.length).getD 0

/-- `df["Issue"].nunique()`: distinct non-missing issue cells. -/
def nunique (T : Table) : Nat := (issue_list T).length

/-- The `unique_issues` property. -/
def unique_issues (st : BotState) : Nat := (st.df.map nunique).getD 0

/-- Result of one `refresh` call: the success dict, the failure dict, or
an uncaught exception escaping `bot.refresh` (from `pd.read_excel`). -/
inductive RefreshOutcome where
  | success (total_records unique_issues : Nat) (last_refresh : Option Str)
  | failure (message : Str)
  | raised (message : Str)
deriving DecidableEq, Repr

/-- The failure message of `refresh`. -/
def downloadFailMsg : Str := str "Download failed – check ONEDRIVE_SHARE_LINK env var."

/-- `ExamSupportBot.refresh`: `download_excel` catches its exceptions and
returns a boolean (`downloadOk`); on success, `load_from_path` parses the
file (`parsed = some T`) and installs it, or `pd.read_excel` raises
(`parsed = none`) and the exception escapes `refresh` uncaught, leaving
the state untouched. -/
def refresh (st : BotState) (downloadOk : Bool) (parsed : Option Table)
    (now : Str) : BotState × RefreshOutcome :=
  if downloadOk then
    match parsed with
    | some T =>
      let st' := install st T now
      (st', .success (total_records st') (unique_issues st') st'.last_refresh)
    | none => (st, .raised (str "pd.read_excel raised"))
  else (st, .failure downloadFailMsg)

/-- The record/issue counts of a status payload, when it is a success. -/
def outcomeCounts : RefreshOutcome → Option (Nat × Nat)
  | .success tr ui _ => some (tr, ui)
  | _ => none

/-! ## Concrete fixtures used by counterexamples and witnesses -/

/-- A record whose issue is `"ab"`, other cells missing. -/
def recAB : Record := ⟨some (str "ab"), none, none⟩

/-- A record whose issue is `"abcd"`, other cells missing. -/
def recABCD : Record := ⟨some (str "abcd"), none, none⟩

/-- Table with `"ab"` before `"abcd"`. -/
def tabAB_ABCD : Table := [recAB, recABCD]

/-- A record with every cell missing (`NaN`). -/
def recMissing : Record := ⟨none, none, none⟩

/-- A record far from any test query. -/
def recZZ : Record := ⟨some (str "zz"), some (str "zz"), some (str "zz")⟩

/-- A record whose issue cell is the empty string (present, not `NaN`). -/
def recEmptyIssue : Record := ⟨some [], some (str "d"), some (str "s")⟩

/-- Scenario A of the spec: the login record. -/
def recLogin : Record :=
  ⟨some (str "Login Issue"), some (str "cannot log in"), some (str "reset password")⟩

/-- The spec's wording for the full-query tier: "the full (trimmed,
lower-cased) query is a substring of the field text".  Used to compare
the spec's scoring table with the code's. -/
def full_query_matches (q t : Str) : Prop := q <:+: t

/-- The spec's wording for the word tier: "any single query word is a
substring of the field text". -/
def word_matches (q t : Str) : Prop := ∃ w ∈ pySplit q, w <:+: t

/-- The identifying cells of a result dict, for order comparisons. -/
def candKey (c : Cand) : Option Str × Option Str × Str :=
  (c.issue, c.description, c.solution)

/-- The identifying cells of a table row, as its result dict would show. -/
def recKey (r : Record) : Option Str × Option Str × Str :=
  (r.issue, r.description, pyStr r.solution)

/-! ## Properties of the stable descending sort -/

theorem mem_insertDesc (le : α → α → Bool) (x : α) (l : List α) (z : α) :
    z ∈ insertDesc le x l ↔ z = x ∨ z ∈ l := by
  induction l with
  | nil => simp [insertDesc]
  | cons y ys ih =>
    simp only [insertDesc]
    by_cases h : le y x = true
    · simp [if_pos h, List.mem_cons]
    · simp only [if_neg h, List.mem_cons, ih]
      tauto

theorem perm_insertDesc (le : α → α → Bool) (x : α) (l : List α) :
    (insertDesc le x l).Perm (x :: l) := by
  induction l with
  | nil => exact List.Perm.refl _
  | cons y ys ih =>
    simp only [insertDesc]
    by_cases h : le y x = true
    · simp only [if_pos h]
      exact List.Perm.refl _
    · simp only [if_neg h]
      exact (ih.cons y).trans (List.Perm.swap x y ys)

theorem perm_sortDesc (le : α → α → Bool) (l : List α) :
    (sortDesc le l).Perm l := by
  induction l with
  | nil => exact List.Perm.refl _
  | cons x xs ih =>
    exact (perm_insertDesc le x (sortDesc le xs)).trans (ih.cons x)

theorem pairwise_insertDesc (le : α → α → Bool) (x : α) (l : List α)
    (htot : ∀ a ∈ x :: l, ∀ b ∈ x :: l, le a b = true ∨ le b a = true)
    (htrans : ∀ a ∈ x :: l, ∀ b ∈ x :: l, ∀ c ∈ x :: l,
      le a b = true → le b c = true → le a c = true)
    (h : l.Pairwise (fun a b => le b a = true)) :
    (insertDesc le x l).Pairwise (fun a b => le b a = true) := by
  induction l with
  | nil => simp [insertDesc]
  | cons y ys ih =>
    obtain ⟨hy, hys⟩ := List.pairwise_cons.1 h
    simp only [insertDesc]
    by_cases hle : le y x = true
    · rw [if_pos hle]
      refine List.pairwise_cons.2 ⟨?_, h⟩
      intro z hz
      rcases List.mem_cons.1 hz with rfl | hz
      · exact hle
      · exact htrans z (List.mem_cons.2 (Or.inr (List.mem_cons.2 (Or.inr hz))))
          y (List.mem_cons.2 (Or.inr (List.mem_cons_self y ys)))
          x (List.mem_cons_self x (y :: ys)) (hy z hz) hle
    · rw [if_neg hle]
      refine List.pairwise_cons.2 ⟨?_, ?_⟩
      · intro z hz
        rcases (mem_insertDesc le x ys z).1 hz with rfl | hz
        · rcases htot z (List.mem_cons_self z (y :: ys))
              y (List.mem_cons.2 (Or.inr (List.mem_cons_self y ys))) with h1 | h1
          · exact h1
          · exact absurd h1 hle
        · exact hy z hz
      · refine ih ?_ ?_ hys
        · intro a ha b hb
          refine htot a ?_ b ?_ <;>
            simp only [List.mem_cons] at ha hb ⊢ <;> tauto
        · intro a ha b hb c hc
          refine htrans a ?_ b ?_ c ?_ <;>
            simp only [List.mem_cons] at ha hb hc ⊢ <;> tauto

theorem pairwise_sortDesc (le : α → α → Bool) (l : List α)
    (htot : ∀ a ∈ l, ∀ b ∈ l, le a b = true ∨ le b a = true)
    (htrans : ∀ a ∈ l, ∀ b ∈ l, ∀ c ∈ l,
      le a b = true → le b c = true → le a c = true) :
    (sortDesc le l).Pairwise (fun a b => le b a = true) := by
  induction l with
  | nil => simp [sortDesc]
  | cons x xs ih =>
    have hmem : ∀ z, z ∈ x :: sortDesc le xs → z ∈ x :: xs := by
      intro z hz
      rcases List.mem_cons.1 hz with rfl | hz
      · exact List.mem_cons_self _ _
      · exact List.mem_cons.2 (Or.inr ((perm_sortDesc le xs).mem_iff.1 hz))
    refine pairwise_insertDesc le x (sortDesc le xs) ?_ ?_ ?_
    · intro a ha b hb
      exact htot a (hmem a ha) b (hmem b hb)
    · intro a ha b hb c hc
      exact htrans a (hmem a ha) b (hmem b hb) c (hmem c hc)
    · refine ih ?_ ?_
      · intro a ha b hb
        exact htot a (List.mem_cons.2 (Or.inr ha)) b (List.mem_cons.2 (Or.inr hb))
      · intro a ha b hb c hc
        exact htrans a (List.mem_cons.2 (Or.inr ha)) b (List.mem_cons.2 (Or.inr hb))
          c (List.mem_cons.2 (Or.inr hc))

theorem sortDesc_take_dominates (le : α → α → Bool) (l : List α) (n : Nat) (x : α)
    (htot : ∀ a ∈ l, ∀ b ∈ l, le a b = true ∨ le b a = true)
    (htrans : ∀ a ∈ l, ∀ b ∈ l, ∀ c ∈ l,
      le a b = true → le b c = true → le a c = true)
    (hx : x ∈ l) (hnot : x ∉ (sortDesc le l).take n) :
    ((sortDesc le l).take n).length = n ∧
      ∀ y ∈ (sortDesc le l).take n, le x y = true := by
  have hperm := perm_sortDesc le l
  have hpw := pairwise_sortDesc le l htot htrans
  have hxs : x ∈ sortDesc le l := hperm.mem_iff.2 hx
  have hsplit := List.take_append_drop n (sortDesc le l)
  have hxd : x ∈ (sortDesc le l).drop n := by
    rw [← hsplit] at hxs
    rcases List.mem_append.1 hxs with h | h
    · exact absurd h hnot
    · exact h
  have hpw2 : ((sortDesc le l).take n ++ (sortDesc le l).drop n).Pairwise
      (fun a b => le b a = true) := by
    rw [hsplit]; exact hpw
  constructor
  · have hlt : n < (sortDesc le l).length := by
      by_contra hge
      push_neg at hge
      have hnil : (sortDesc le l).drop n = [] := List.drop_eq_nil_iff.2 hge
      rw [hnil] at hxd
      exact absurd hxd (List.not_mem_nil x)
    rw [List.length_take]
    omega
  · intro y hy
    exact (List.pairwise_append.1 hpw2).2.2 y hy x hxd

/-! ## The matcher sort key and its stability -/

theorem candLe_total (a b : Cand) : candLe a b = true ∨ candLe b a = true := by
  simp only [candLe, decide_eq_true_eq]
  omega

theorem candLe_trans (a b c : Cand) :
    candLe a b = true → candLe b c = true → candLe a c = true := by
  simp only [candLe, decide_eq_true_eq]
  omega

theorem filter_insertDesc_score (x : Cand) (l : List Cand) (s : Nat) :
    (insertDesc candLe x l).filter (fun c => c.score == s) =
      if x.score == s then x :: l.filter (fun c => c.score == s)
      else l.filter (fun c => c.score == s) := by
  induction l with
  | nil =>
    cases hx : x.score == s <;> simp [insertDesc, List.filter, hx]
  | cons y ys ih =>
    simp only [insertDesc]
    by_cases hle : candLe y x = true
    · cases hx : x.score == s <;> cases hy : y.score == s <;>
        simp [List.filter, hx, hy, hle]
    · have hyx : x.score < y.score := by
        have h1 : ¬ (y.score ≤ x.score) := by
          intro h2
          exact hle (by simp [candLe, h2])
        omega
      rw [if_neg hle]
      cases hy : y.score == s
      · simp only [List.filter, hy]
        exact ih
      · have hys : y.score = s := beq_iff_eq.1 hy
        have hx : (x.score == s) = false :=
          beq_eq_false_iff_ne.2 (by omega)
        simp [List.filter, hy, ih, hx]

theorem filter_sortDesc_score (l : List Cand) (s : Nat) :
    (sortDesc candLe l).filter (fun c => c.score == s) =
      l.filter (fun c => c.score == s) := by
  induction l with
  | nil => rfl
  | cons x xs ih =>
    show (insertDesc candLe x (sortDesc candLe xs)).filter _ = _
    rw [filter_insertDesc_score]
    cases hx : x.score == s <;> simp [List.filter, hx, ih]

/-! ## The fallback sort key: totality and transitivity -/

theorem lexLe_total : ∀ a b : Str, lexLe a b = true ∨ lexLe b a = true := by
  intro a
  induction a with
  | nil => intro b; left; rfl
  | cons x as ih =>
    intro b
    cases b with
    | nil => right; rfl
    | cons y bs =>
      simp only [lexLe]
      rcases lt_trichotomy x y with h | h | h
      · left; rw [if_pos h]
      · subst h
        rcases ih bs with h1 | h1
        · left; rw [if_neg (lt_irrefl x), if_pos rfl]; exact h1
        · right; rw [if_neg (lt_irrefl x), if_pos rfl]; exact h1
      · right; rw [if_pos h]

theorem lexLe_trans :
    ∀ a b c : Str, lexLe a b = true → lexLe b c = true → lexLe a c = true := by
  intro a
  induction a with
  | nil => intro b c h1 h2; rfl
  | cons x as ih =>
    intro b c h1 h2
    cases b with
    | nil => simp [lexLe] at h1
    | cons y bs =>
      cases c with
      | nil => simp [lexLe] at h2
      | cons z cs =>
        simp only [lexLe] at h1 h2 ⊢
        by_cases hxy : x < y
        · by_cases hyz : y < z
          · rw [if_pos (lt_trans hxy hyz)]
          · rw [if_neg hyz] at h2
            by_cases hyz2 : y = z
            · subst hyz2; rw [if_pos hxy]
            · rw [if_neg hyz2] at h2; exact absurd h2 (by simp)
        · rw [if_neg hxy] at h1
          by_cases hxy2 : x = y
          · subst hxy2
            rw [if_pos rfl] at h1
            by_cases hyz : x < z
            · rw [if_pos hyz]
            · rw [if_neg hyz] at h2 ⊢
              by_cases hyz2 : x = z
              · rw [if_pos hyz2] at h2 ⊢
                exact ih bs cs h1 h2
              · rw [if_neg hyz2] at h2; exact absurd h2 (by simp)
          · rw [if_neg hxy2] at h1; exact absurd h1 (by simp)

theorem entryLe_total (e f : RatioEntry) :
    entryLe e f = true ∨ entryLe f e = true := by
  simp only [entryLe, Bool.or_eq_true, Bool.and_eq_true, decide_eq_true_eq]
  rcases Nat.lt_trichotomy (e.num * f.den) (f.num * e.den) with h | h | h
  · exact Or.inl (Or.inl h)
  · rcases lexLe_total e.name f.name with h1 | h1
    · exact Or.inl (Or.inr ⟨h, h1⟩)
    · exact Or.inr (Or.inr ⟨h.symm, h1⟩)
  · exact Or.inr (Or.inl h)

theorem entryLe_trans (e f g : RatioEntry)
    (he : 0 < e.den) (hf : 0 < f.den) (hg : 0 < g.den) :
    entryLe e f = true → entryLe f g = true → entryLe e g = true := by
  simp only [entryLe, Bool.or_eq_true, Bool.and_eq_true, decide_eq_true_eq]
  rintro (h1 | ⟨h1, hl1⟩) (h2 | ⟨h2, hl2⟩)
  · left
    have hk : e.num * g.den * f.den < g.num * e.den * f.den := by nlinarith
    exact Nat.lt_of_mul_lt_mul_right hk
  · left
    have hk : e.num * g.den * f.den < g.num * e.den * f.den := by nlinarith
    exact Nat.lt_of_mul_lt_mul_right hk
  · left
    have hk : e.num * g.den * f.den < g.num * e.den * f.den := by nlinarith
    exact Nat.lt_of_mul_lt_mul_right hk
  · right
    have hk : e.num * g.den * f.den = g.num * e.den * f.den := by nlinarith
    exact ⟨Nat.eq_of_mul_eq_mul_right hf hk, lexLe_trans _ _ _ hl1 hl2⟩

theorem entryLe_ratio_le (e f : RatioEntry) (h : entryLe e f = true) :
    e.num * f.den ≤ f.num * e.den := by
  simp only [entryLe, Bool.or_eq_true, Bool.and_eq_true, decide_eq_true_eq] at h
  rcases h with h | ⟨h, -⟩ <;> omega

/-! ## Ratio facts -/

theorem ratioPair_den_pos (a b : Str) : 0 < (ratioPair a b).2 := by
  simp only [ratioPair]
  split
  · exact Nat.one_pos
  · rename_i h
    simpa using Nat.pos_of_ne_zero h

theorem ratioQ_cutoff_iff (a b : Str) :
    (2 : ℚ)/5 ≤ ratioQ a b ↔ 2 * (ratioPair a b).2 ≤ 5 * (ratioPair a b).1 := by
  have hd : (0 : ℚ) < ((ratioPair a b).2 : ℚ) := by
    exact_mod_cast ratioPair_den_pos a b
  rw [ratioQ, div_le_div_iff₀ (by norm_num) hd,
    mul_comm (((ratioPair a b).1 : ℚ)) (5 : ℚ)]
  norm_cast

theorem mem_ratio_pairs_of (query : Str) (names : List Str) (e : RatioEntry)
    (he : e ∈ ratio_pairs query names) :
    e.name ∈ names ∧ ratioPair e.name query = (e.num, e.den) ∧
      2 * e.den ≤ 5 * e.num := by
  simp only [ratio_pairs, List.mem_filterMap] at he
  obtain ⟨x, hx, hcond⟩ := he
  by_cases hc : 2 * (ratioPair x query).2 ≤ 5 * (ratioPair x query).1
  · rw [if_pos hc] at hcond
    obtain rfl := Option.some.inj hcond
    exact ⟨hx, rfl, hc⟩
  · rw [if_neg hc] at hcond
    exact absurd hcond (by simp)

theorem ratio_pairs_complete (query : Str) (names : List Str) (x : Str)
    (hx : x ∈ names) (hc : 2 * (ratioPair x query).2 ≤ 5 * (ratioPair x query).1) :
    (⟨(ratioPair x query).1, (ratioPair x query).2, x⟩ : RatioEntry) ∈
      ratio_pairs query names := by
  simp only [ratio_pairs, List.mem_filterMap]
  exact ⟨x, hx, by rw [if_pos hc]⟩

theorem ratio_pairs_den_pos (query : Str) (names : List Str) (e : RatioEntry)
    (he : e ∈ ratio_pairs query names) : 0 < e.den := by
  obtain ⟨-, hp, -⟩ := mem_ratio_pairs_of query names e he
  have := ratioPair_den_pos e.name query
  rw [hp] at this
  exact this

theorem ratioQ_entry (query : Str) (names : List Str) (e : RatioEntry)
    (he : e ∈ ratio_pairs query names) :
    ratioQ e.name query = (e.num : ℚ) / (e.den : ℚ) := by
  obtain ⟨-, hp, -⟩ := mem_ratio_pairs_of query names e he
  rw [ratioQ, hp]

theorem entry_ratioQ_le (query : Str) (names : List Str) (e f : RatioEntry)
    (he : e ∈ ratio_pairs query names) (hf : f ∈ ratio_pairs query names)
    (h : e.num * f.den ≤ f.num * e.den) :
    ratioQ e.name query ≤ ratioQ f.name query := by
  have hde : 0 < e.den := ratio_pairs_den_pos query names e he
  have hdf : 0 < f.den := ratio_pairs_den_pos query names f hf
  rw [ratioQ_entry query names e he, ratioQ_entry query names f hf,
    div_le_div_iff₀ (by exact_mod_cast hde) (by exact_mod_cast hdf)]
  exact_mod_cast h

/-! ## The distinct issue-name list -/

theorem mem_dedupGo (l : List Str) : ∀ (seen : List Str) (n : Str),
    n ∈ dedupGo seen l ↔ n ∈ l ∧ n ∉ seen := by
  induction l with
  | nil => intro seen n; simp [dedupGo]
  | cons x xs ih =>
    intro seen n
    simp only [dedupGo]
    by_cases hx : x ∈ seen
    · rw [if_pos hx, ih]
      constructor
      · rintro ⟨h1, h2⟩
        exact ⟨List.mem_cons.2 (Or.inr h1), h2⟩
      · rintro ⟨h1, h2⟩
        rcases List.mem_cons.1 h1 with rfl | h1
        · exact absurd hx h2
        · exact ⟨h1, h2⟩
    · rw [if_neg hx]
      constructor
      · intro hn
        rcases List.mem_cons.1 hn with rfl | hn
        · exact ⟨List.mem_cons_self _ _, hx⟩
        · rw [ih] at hn
          obtain ⟨h1, h2⟩ := hn
          exact ⟨List.mem_cons.2 (Or.inr h1),
            fun hc => h2 (List.mem_cons.2 (Or.inr hc))⟩
      · rintro ⟨h1, h2⟩
        rcases List.mem_cons.1 h1 with rfl | h1
        · exact List.mem_cons_self _ _
        · by_cases hnx : n = x
          · subst hnx; exact List.mem_cons_self _ _
          · refine List.mem_cons.2 (Or.inr ?_)
            rw [ih]
            refine ⟨h1, fun hc => ?_⟩
            rcases List.mem_cons.1 hc with h | h
            · exact hnx h
            · exact h2 h

theorem nodup_dedupGo (l : List Str) : ∀ seen : List Str, (dedupGo seen l).Nodup := by
  induction l with
  | nil => intro seen; simp [dedupGo]
  | cons x xs ih =>
    intro seen
    simp only [dedupGo]
    by_cases hx : x ∈ seen
    · rw [if_pos hx]; exact ih seen
    · rw [if_neg hx]
      refine List.nodup_cons.2 ⟨?_, ih (x :: seen)⟩
      intro hmem
      rw [mem_dedupGo] at hmem
      exact hmem.2 (List.mem_cons_self x seen)

theorem mem_issue_list (T : Table) (n : Str) :
    n ∈ issue_list T ↔ some n ∈ T.map Record.issue := by
  rw [issue_list, mem_dedupGo]
  simp [List.mem_filterMap, List.mem_map]

/-! ## Fallback results -/

theorem fallback_results_score (query : Str) (Texp Tread : Table) (c : Cand)
    (hc : c ∈ fallback_results query Texp Tread) : c.score = 25 := by
  simp only [fallback_results, List.mem_flatMap] at hc
  obtain ⟨m, -, hc⟩ := hc
  simp only [List.mem_map] at hc
  obtain ⟨r, -, rfl⟩ := hc
  rfl

theorem mem_fallback_results_of (query : Str) (Texp Tread : Table) (m : Str)
    (hm : m ∈ get_close_matches query (issue_list Tread)) (r : Record)
    (hr : r ∈ Texp) (hissue : r.issue = some m) :
    fbCand r ∈ fallback_results query Texp Tread := by
  simp only [fallback_results, List.mem_flatMap]
  exact ⟨m, hm, List.mem_map_of_mem _ (List.mem_filter.2 ⟨hr, by simp [hissue]⟩)⟩

theorem fallback_results_issue (query : Str) (Texp Tread : Table) (c : Cand)
    (hc : c ∈ fallback_results query Texp Tread) :
    ∃ m ∈ get_close_matches query (issue_list Tread), c.issue = some m := by
  simp only [fallback_results, List.mem_flatMap] at hc
  obtain ⟨m, hm, hc⟩ := hc
  simp only [List.mem_map] at hc
  obtain ⟨r, hr, rfl⟩ := hc
  have h2 := (List.mem_filter.1 hr).2
  exact ⟨m, hm, by simpa [fbCand] using of_decide_eq_true h2⟩

/-! ## `get_close_matches` facts -/

theorem take3_mem_ratio_pairs (query : Str) (names : List Str) (e : RatioEntry)
    (he : e ∈ (sortDesc entryLe (ratio_pairs query names)).take 3) :
    e ∈ ratio_pairs query names :=
  (perm_sortDesc _ _).mem_iff.1 ((List.take_sublist _ _).subset he)

theorem mem_get_close_matches (query : Str) (names : List Str) (m : Str) :
    m ∈ get_close_matches query names ↔
      ∃ e ∈ (sortDesc entryLe (ratio_pairs query names)).take 3, e.name = m := by
  rw [get_close_matches]
  exact List.mem_map

/-! ## Sortedness of the final result -/

theorem search_core_pairwise (query : Str) (Tfirst Tsecond : Table) :
    (search_core query Tfirst Tsecond).Pairwise (fun a b => b.score ≤ a.score) := by
  simp only [search_core]
  by_cases h : (sortDesc candLe (matcher_results query Tfirst)).isEmpty
  · rw [if_pos h]
    refine List.pairwise_of_forall_mem_list ?_
    intro a ha b hb
    rw [fallback_results_score query Tfirst Tsecond a ha,
      fallback_results_score query Tfirst Tsecond b hb]
  · rw [if_neg h]
    refine List.Pairwise.imp_of_mem ?_
      (pairwise_sortDesc candLe (matcher_results query Tfirst)
        (fun a _ b _ => candLe_total a b)
        (fun a _ b _ c _ => candLe_trans a b c))
    intro a b _ _ hab
    exact of_decide_eq_true hab

theorem search_issue_some_spec (df : Option Table) (query : Str) (l : List Cand)
    (h : search_issue df query = some l) :
    l.length ≤ 5 ∧ l.Pairwise (fun a b => b.score ≤ a.score) := by
  match df with
  | none => simp [search_issue] at h
  | some t =>
    simp only [search_issue] at h
    by_cases hq : (pyStrip query).isEmpty
    · rw [if_pos hq] at h
      exact absurd h (by simp)
    · rw [if_neg hq] at h
      by_cases hout : ((search_core query t t).take 5).isEmpty
      · rw [if_pos hout] at h
        exact absurd h (by simp)
      · rw [if_neg hout] at h
        obtain rfl := Option.some.inj h
        constructor
        · rw [List.length_take]
          exact min_le_left _ _
        · exact List.Pairwise.sublist (List.take_sublist 5 _)
            (search_core_pairwise query t t)

/-! ## Bridges between boolean tests and the spec's wording -/

theorem isSub_iff (n h : Str) : isSub n h = true ↔ full_query_matches n h := by
  simp [isSub, full_query_matches]

theorem any_word_iff (q t : Str) :
    (pySplit q).any (fun w => isSub w t) = true ↔ word_matches q t := by
  simp [List.any_eq_true, isSub, word_matches]

/-! ## Claim theorems -/

/-- C1: for every record and every non-empty trimmed query, the Matcher's
score is the sum of an issue-field tier and a description-field tier; the
issue field contributes 100 when the full trimmed lower-cased query is a
substring of the field text, else 50 when any single query word is, else
0; the description field independently contributes 75 / 30 / 0 with the
same precedence (the two tiers of a field are mutually exclusive, the
full-query tier first); and a record with total score 0 is not among the
candidates. -/
theorem C1_matcher_score (query : Str) (r : Record) (_hq : pyStrip query ≠ []) :
    (row_score (pyStrip (pyLower query)) r =
        issue_score (pyStrip (pyLower query)) (pyLower (pyStr r.issue)) +
        description_score (pyStrip (pyLower query)) (pyLower (pyStr r.description)))
    ∧ (∀ t : Str,
        (full_query_matches (pyStrip (pyLower query)) t →
          issue_score (pyStrip (pyLower query)) t = 100 ∧
          description_score (pyStrip (pyLower query)) t = 75)
        ∧ (¬ full_query_matches (pyStrip (pyLower query)) t →
            word_matches (pyStrip (pyLower query)) t →
          issue_score (pyStrip (pyLower query)) t = 50 ∧
          description_score (pyStrip (pyLower query)) t = 30)
        ∧ (¬ full_query_matches (pyStrip (pyLower query)) t →
            ¬ word_matches (pyStrip (pyLower query)) t →
          issue_score (pyStrip (pyLower query)) t = 0 ∧
          description_score (pyStrip (pyLower query)) t = 0))
    ∧ (∀ T : Table, ∀ c ∈ matcher_results query T, 0 < c.score)
    ∧ (∀ T : Table, ∀ r' ∈ T, row_score (pyStrip (pyLower query)) r' = 0 →
        mkCand (pyStrip (pyLower query)) r' ∉ matcher_results query T) := by
  refine ⟨rfl, ?_, ?_, ?_⟩
  · intro t
    refine ⟨?_, ?_, ?_⟩
    · intro hfull
      have h1 : isSub (pyStrip (pyLower query)) t = true := (isSub_iff _ _).2 hfull
      exact ⟨by simp [issue_score, h1], by simp [description_score, h1]⟩
    · intro hnfull hword
      have h1 : ¬ isSub (pyStrip (pyLower query)) t = true :=
        fun hc => hnfull ((isSub_iff _ _).1 hc)
      have h2 : (pySplit (pyStrip (pyLower query))).any (fun w => isSub w t) = true :=
        (any_word_iff _ _).2 hword
      exact ⟨by simp [issue_score, h1, h2], by simp [description_score, h1, h2]⟩
    · intro hnfull hnword
      have h1 : ¬ isSub (pyStrip (pyLower query)) t = true :=
        fun hc => hnfull ((isSub_iff _ _).1 hc)
      have h2 : ¬ (pySplit (pyStrip (pyLower query))).any (fun w => isSub w t) = true :=
        fun hc => hnword ((any_word_iff _ _).1 hc)
      exact ⟨by simp [issue_score, h1, h2], by simp [description_score, h1, h2]⟩
  · intro T c hc
    simp only [matcher_results, List.mem_filterMap] at hc
    obtain ⟨r', hr', hcond⟩ := hc
    by_cases hpos : 0 < row_score (pyStrip (pyLower query)) r'
    · rw [if_pos hpos] at hcond
      obtain rfl := Option.some.inj hcond
      simpa [mkCand] using hpos
    · rw [if_neg hpos] at hcond
      exact absurd hcond (by simp)
  · intro T r' hr' hzero hmem
    simp only [matcher_results, List.mem_filterMap] at hmem
    obtain ⟨r'', hr'', hcond⟩ := hmem
    by_cases hpos : 0 < row_score (pyStrip (pyLower query)) r''
    · rw [if_pos hpos] at hcond
      have hs : row_score (pyStrip (pyLower query)) r'' =
          row_score (pyStrip (pyLower query)) r' :=
        congrArg Cand.score (Option.some.inj hcond)
      omega
    · rw [if_neg hpos] at hcond
      exact absurd hcond (by simp)

/-- C1 witness: Scenario A of the spec, query `"login"` against the login
record; the hypotheses of `C1_matcher_score` hold there. -/
theorem C1_matcher_score_witness :
    pyStrip (str "login") ≠ [] ∧
      row_score (pyStrip (pyLower (str "login"))) recLogin =
        issue_score (pyStrip (pyLower (str "login")))
          (pyLower (pyStr recLogin.issue)) +
        description_score (pyStrip (pyLower (str "login")))
          (pyLower (pyStr recLogin.description)) :=
  ⟨by decide, (C1_matcher_score (str "login") recLogin (by decide)).1⟩

/-- C2 (counterexample): on the table `["ab", "abcd"]` with query
`"abcd!"`, both matcher tiers miss, the fallback fires, and the two
returned candidates have the equal score 25 but appear in fuzzy-ranking
order `["abcd", "ab"]`, the reverse of the table order, so the returned
equal-score candidates are not a subsequence of the table order as the
claim asserts. -/
theorem C2_stable_order_cex :
    ¬ (∀ l : List Cand,
        search_issue (some tabAB_ABCD) (str "abcd!") = some l →
        l.length ≤ 5 ∧ l.Pairwise (fun a b => b.score ≤ a.score) ∧
          ∀ s : Nat, ((l.filter (fun c => c.score == s)).map candKey).Sublist
            (tabAB_ABCD.map recKey)) := by
  intro h
  obtain ⟨-, -, hsub⟩ := h [fbCand recABCD, fbCand recAB] (by decide)
  have h25 := hsub 25
  have hfe : (([fbCand recABCD, fbCand recAB].filter
      (fun c => c.score == 25)).map candKey) =
      [candKey (fbCand recABCD), candKey (fbCand recAB)] := by decide
  rw [hfe] at h25
  have heq := h25.eq_of_length (by decide)
  exact absurd heq (by decide)

/-- C2 (amended): `search_issue` returns at most 5 candidates ordered by
non-increasing score; equal-score candidates keep the table's relative
order when they come from the Matcher pass (its sort is stable: filtering
any score class commutes with the sort); fallback candidates all score 25
and follow the fallback's issue-name ranking instead of table order. -/
theorem C2_search_bounded_sorted_stable :
    (∀ (df : Option Table) (query : Str) (l : List Cand),
        search_issue df query = some l →
        l.length ≤ 5 ∧ l.Pairwise (fun a b => b.score ≤ a.score))
    ∧ (∀ (query : Str) (T : Table) (s : Nat),
        (sortDesc candLe (matcher_results query T)).filter (fun c => c.score == s) =
          (matcher_results query T).filter (fun c => c.score == s))
    ∧ (∀ (query : Str) (Texp Tread : Table),
        ∀ c ∈ fallback_results query Texp Tread, c.score = 25) :=
  ⟨search_issue_some_spec,
    fun _query T s => filter_sortDesc_score (matcher_results _query T) s,
    fallback_results_score⟩

/-- C2 witness: the concrete search for `"login"` returns one candidate,
within the bound and sorted. -/
theorem C2_search_bounded_sorted_stable_witness :
    ([⟨100, some (str "Login Issue"), some (str "cannot log in"),
        str "reset password"⟩] : List Cand).length ≤ 5 ∧
      ([⟨100, some (str "Login Issue"), some (str "cannot log in"),
        str "reset password"⟩] : List Cand).Pairwise
          (fun a b => b.score ≤ a.score) :=
  C2_search_bounded_sorted_stable.1 (some [recLogin]) (str "login")
    [⟨100, some (str "Login Issue"), some (str "cannot log in"),
      str "reset password"⟩] (by decide)

/-- C3: for every table and query, the Fallback Resolver keeps at most 3
distinct issue names, every kept name is a distinct issue of the table
with similarity ratio at least 0.4 to the query, the kept names are
ordered by non-increasing ratio, any distinct issue name with ratio at
least 0.4 that is not kept loses only to 3 kept names of at least its
ratio, each kept name is expanded to all records whose issue equals it
exactly, and every expanded candidate has the fixed score 25. -/
theorem C3_fallback_top3 (query : Str) (T : Table) :
    (∀ c ∈ fallback_results query T T, c.score = 25)
    ∧ (get_close_matches query (issue_list T)).length ≤ 3
    ∧ (∀ m ∈ get_close_matches query (issue_list T),
        m ∈ issue_list T ∧ (2 : ℚ)/5 ≤ ratioQ m query)
    ∧ ((get_close_matches query (issue_list T)).map
        (fun m => ratioQ m query)).Pairwise (fun x y => y ≤ x)
    ∧ (∀ m ∈ issue_list T, (2 : ℚ)/5 ≤ ratioQ m query →
        m ∈ get_close_matches query (issue_list T) ∨
          ((get_close_matches query (issue_list T)).length = 3 ∧
            ∀ m' ∈ get_close_matches query (issue_list T),
              ratioQ m query ≤ ratioQ m' query))
    ∧ (∀ m ∈ get_close_matches query (issue_list T), ∀ r ∈ T,
        r.issue = some m → fbCand r ∈ fallback_results query T T)
    ∧ (∀ c ∈ fallback_results query T T,
        ∃ m ∈ get_close_matches query (issue_list T), c.issue = some m) := by
  have hdtot : ∀ a ∈ ratio_pairs query (issue_list T),
      ∀ b ∈ ratio_pairs query (issue_list T),
      entryLe a b = true ∨ entryLe b a = true :=
    fun a _ b _ => entryLe_total a b
  have hdtrans : ∀ a ∈ ratio_pairs query (issue_list T),
      ∀ b ∈ ratio_pairs query (issue_list T),
      ∀ c ∈ ratio_pairs query (issue_list T),
      entryLe a b = true → entryLe b c = true → entryLe a c = true :=
    fun a ha b hb c hc =>
      entryLe_trans a b c (ratio_pairs_den_pos query _ a ha)
        (ratio_pairs_den_pos query _ b hb) (ratio_pairs_den_pos query _ c hc)
  refine ⟨fallback_results_score query T T, ?_, ?_, ?_, ?_,
    mem_fallback_results_of query T T, fallback_results_issue query T T⟩
  · rw [get_close_matches, List.length_map, List.length_take]
    exact min_le_left _ _
  · intro m hm
    obtain ⟨e, he3, rfl⟩ := (mem_get_close_matches query _ m).1 hm
    have herp := take3_mem_ratio_pairs query _ e he3
    obtain ⟨hname, hp, hcut⟩ := mem_ratio_pairs_of query _ e herp
    refine ⟨hname, ?_⟩
    rw [ratioQ_cutoff_iff, hp]
    exact hcut
  · have hpw3 : ((sortDesc entryLe (ratio_pairs query (issue_list T))).take 3).Pairwise
        (fun a b => entryLe b a = true) :=
      List.Pairwise.sublist (List.take_sublist _ _)
        (pairwise_sortDesc entryLe _ hdtot hdtrans)
    rw [get_close_matches, List.pairwise_map, List.pairwise_map]
    refine List.Pairwise.imp_of_mem ?_ hpw3
    intro a b ha hb hab
    exact entry_ratioQ_le query _ b a
      (take3_mem_ratio_pairs query _ b hb) (take3_mem_ratio_pairs query _ a ha)
      (entryLe_ratio_le b a hab)
  · intro m hmem hcut
    by_cases hin : m ∈ get_close_matches query (issue_list T)
    · exact Or.inl hin
    · right
      have hcutN : 2 * (ratioPair m query).2 ≤ 5 * (ratioPair m query).1 :=
        (ratioQ_cutoff_iff m query).1 hcut
      have hepair : (⟨(ratioPair m query).1, (ratioPair m query).2, m⟩ :
          RatioEntry) ∈ ratio_pairs query (issue_list T) :=
        ratio_pairs_complete query _ m hmem hcutN
      have hnot : (⟨(ratioPair m query).1, (ratioPair m query).2, m⟩ :
          RatioEntry) ∉ (sortDesc entryLe (ratio_pairs query (issue_list T))).take 3 := by
        intro hc
        exact hin ((mem_get_close_matches query _ m).2 ⟨_, hc, rfl⟩)
      obtain ⟨hlen, hdom⟩ := sortDesc_take_dominates entryLe _ 3 _
        hdtot hdtrans hepair hnot
      constructor
      · rw [get_close_matches, List.length_map]
        exact hlen
      · intro m' hm'
        obtain ⟨f, hf3, rfl⟩ := (mem_get_close_matches query _ m').1 hm'
        have hcross := entryLe_ratio_le _ f (hdom f hf3)
        exact entry_ratioQ_le query _
          ⟨(ratioPair m query).1, (ratioPair m query).2, m⟩ f hepair
          (take3_mem_ratio_pairs query _ f hf3) hcross

/-- C3 witness: the fallback for `"abcd!"` over the `["ab", "abcd"]` table
keeps the name `"abcd"` and expands it to its record. -/
theorem C3_fallback_top3_witness :
    fbCand recABCD ∈ fallback_results (str "abcd!") tabAB_ABCD tabAB_ABCD :=
  (C3_fallback_top3 (str "abcd!") tabAB_ABCD).2.2.2.2.2.1 (str "abcd")
    (by decide) recABCD (by decide) (by decide)

/-- C4 (counterexample): with the old table `["ab"]` and the new table
`["abcd"]` installed between the two `self.df` reads of one search for
`"abcd!"`, the fallback's issue names come from the new table but the
expansion runs over the old snapshot, producing an empty result that
matches neither the all-old nor the all-new search. -/
theorem C4_snapshot_race_cex :
    ¬ (search_issue_race (some [recAB]) [recABCD] (str "abcd!") =
          search_issue (some [recAB]) (str "abcd!")
        ∨ search_issue_race (some [recAB]) [recABCD] (str "abcd!") =
          search_issue (some [recABCD]) (str "abcd!")) := by
  decide

/-- C4 (amended): each single read of the table slot is atomic (an
install replaces the whole table and a snapshot read returns it whole),
and a search whose two `self.df` reads see the same table behaves as the
single-snapshot search; but one search performs two separate reads, so a
concurrent install can make the fallback's issue-name list come from a
different table than the matcher and expansion pass. -/
theorem C4_install_atomic_but_two_reads :
    (∀ (st : BotState) (T : Table) (now : Str),
        get_snapshot (install st T now) = some T)
    ∧ (∀ (T : Table) (query : Str),
        search_issue_race (some T) T query = search_issue (some T) query) :=
  ⟨fun _ _ _ => rfl, fun _ _ => rfl⟩

/-- C5: the claim says a missing field is treated as empty text that no
scoring tier can match; the code renders a missing cell through
`str(...)`, which turns `NaN` into the text `"nan"`, so the query
`"nan"` full-query-matches both missing fields of an all-missing record
and the record is returned with score 175 (the fallback's `dropna` does
exclude the missing name from the issue list). -/
theorem C5_missing_field_matches_nan :
    search_issue (some [recMissing]) (str "nan") =
      some [⟨175, none, none, str "nan"⟩] ∧
      issue_list [recMissing] = [] := by
  decide

/-- C6: when no table has ever been installed the search returns the
empty `None` signal for every query, and for every installed table a
query that is empty after trimming returns `None` without the result
depending on the table. -/
theorem C6_not_ready_and_empty_query :
    (∀ query : Str, search_issue none query = none)
    ∧ (∀ (T : Table) (query : Str), pyStrip query = [] →
        search_issue (some T) query = none) := by
  refine ⟨fun query => rfl, fun T query h => ?_⟩
  simp [search_issue, h]

/-- C6 witness: the not-ready search and a whitespace-only query both
return `None` on concrete inputs. -/
theorem C6_not_ready_and_empty_query_witness :
    search_issue none (str "anything") = none ∧
      pyStrip (str "   ") = [] ∧
      search_issue (some [recLogin]) (str "   ") = none :=
  ⟨C6_not_ready_and_empty_query.1 (str "anything"), by decide,
    C6_not_ready_and_empty_query.2 [recLogin] (str "   ") (by decide)⟩

/-- C7 (counterexample): a successfully executed no-match search (table
installed, both tiers empty) returns exactly the same `None` as the
not-ready search, so the two outcomes are not distinguished by the
search result. -/
theorem C7_no_match_indistinct_cex :
    search_issue (some [recZZ]) (str "qqq") = search_issue none (str "qqq") := by
  decide

/-- C7 (amended): `search_issue` collapses no-match and not-ready into
the same `None` result; the two states are distinguished only by the
separate `ready` property, which is false exactly when no table was ever
installed. -/
theorem C7_no_match_vs_ready :
    (∀ (T : Table) (query : Str), search_issue (some T) query = none →
        search_issue (some T) query = search_issue none query)
    ∧ (∀ ts : Option Str, ready ⟨none, ts⟩ = false)
    ∧ (∀ (T : Table) (ts : Option Str), ready ⟨some T, ts⟩ = true) :=
  ⟨fun _T _query h => by rw [h]; rfl, fun _ => rfl, fun _ _ => rfl⟩

/-- C7 witness: a concrete no-match search equals the not-ready result,
while `ready` tells the two states apart. -/
theorem C7_no_match_vs_ready_witness :
    search_issue (some [recZZ]) (str "qqqq") = search_issue none (str "qqqq") ∧
      ready ⟨some [recZZ], none⟩ = true :=
  ⟨C7_no_match_vs_ready.1 [recZZ] (str "qqqq") (by decide),
    C7_no_match_vs_ready.2.2 [recZZ] none⟩

/-- C8 (counterexample): a record whose issue cell is the empty string is
not `NaN`, so `dropna` keeps it and the empty name appears in the
distinct issue-name list, contradicting the claim that empty issue names
are excluded. -/
theorem C8_empty_issue_name_cex : [] ∈ issue_list [recEmptyIssue] := by
  decide

/-- C8 (amended): the distinct issue-name list contains each name at most
once with its original case preserved, and a name is in the list exactly
when some record carries it (so missing cells are excluded); empty-string
names are not excluded. -/
theorem C8_distinct_issue_names (T : Table) :
    (issue_list T).Nodup ∧
      ∀ n : Str, n ∈ issue_list T ↔ some n ∈ T.map Record.issue :=
  ⟨nodup_dedupGo _ [], fun n => mem_issue_list T n⟩

/-- C8 witness: the characterization evaluated on a concrete table and
name. -/
theorem C8_distinct_issue_names_witness :
    str "ab" ∈ issue_list tabAB_ABCD ↔
      some (str "ab") ∈ tabAB_ABCD.map Record.issue :=
  (C8_distinct_issue_names tabAB_ABCD).2 (str "ab")

/-- C9 (counterexample): the claim says every failed fetch/parse step
reports a structured failure result; when the download succeeds but
`pd.read_excel` raises, `refresh` re-raises instead of returning a
failure dict (the table is still untouched). -/
theorem C9_parse_failure_cex :
    ¬ (∀ (st : BotState) (downloadOk : Bool) (parsed : Option Table) (now : Str),
        (downloadOk = false ∨ parsed = none) →
        (refresh st downloadOk parsed now).1 = st ∧
          ∃ msg, (refresh st downloadOk parsed now).2 =
            RefreshOutcome.failure msg) := by
  intro h
  obtain ⟨-, msg, hmsg⟩ := h ⟨none, none⟩ true none (str "t") (Or.inr rfl)
  exact RefreshOutcome.noConfusion hmsg

/-- C9 (amended): when the download step fails, the table and timestamp
are unchanged and a structured failure with the diagnostic message is
returned; when the download succeeds but parsing raises, the state is
likewise unchanged but the error propagates as an exception instead of a
structured result. -/
theorem C9_refresh_failure_paths :
    (∀ (st : BotState) (parsed : Option Table) (now : Str),
        refresh st false parsed now = (st, RefreshOutcome.failure downloadFailMsg))
    ∧ (∀ (st : BotState) (now : Str),
        refresh st true none now =
          (st, RefreshOutcome.raised (str "pd.read_excel raised"))) :=
  ⟨fun _ _ _ => rfl, fun _ _ => rfl⟩

/-- C10: two consecutive successful refreshes with the same parsed table
report the same record count and the same unique-issue count (the
timestamps may differ, the counts do not). -/
theorem C10_refresh_idempotent (st : BotState) (T : Table) (t1 t2 : Str) :
    outcomeCounts (refresh st true (some T) t1).2 =
      outcomeCounts (refresh (refresh st true (some T) t1).1 true (some T) t2).2 :=
  rfl

example : pyStrip (str "  ab  ") = str "ab" := by decide
example : pySplit (str "a  b c") = [str "a", str "b", str "c"] := by decide
example : pyLower (str "AbC") = str "abc" := by decide
example : isSub (str "log") (str "login issue") = true := by decide
example : ratioPair (str "ab") (str "abcd!") = (4, 7) := by decide
example : ratioPair (str "abcd") (str "abcd!") = (8, 9) := by decide
example : get_close_matches (str "abcd!") [str "ab", str "abcd"] =
    [str "abcd", str "ab"] := by decide
example : search_issue (some [recLogin]) (str "login") =
    some [⟨100, some (str "Login Issue"), some (str "cannot log in"),
      str "reset password"⟩] := by decide
